import Mathlib

/-!
# Formal model of the Arduboy2-for-arcada beep driver

Shallow embedding of `src/Arduboy2Beep.h`: the two tone channels `BeepPin1`
(timer prescaler 8, 16-bit counter) and `BeepPin2` (prescaler 128, 10-bit
counter), their frequency-to-count conversion `freq`, and the
duration-countdown state machine (`begin`, `tone`, `noTone`, `timer`).

The `freq` functions are real code in the header and are translated from it;
`float` arithmetic is modelled as exact rational arithmetic over `ℚ`, and the
C casts to `uint16_t` are modelled as truncation followed by reduction modulo
2^16 (the wraparound reading of out-of-range conversions that the design
documents as "out-of-range or wrapped count value").

The bodies of `begin`, `tone`, `timer` and `noTone` are not part of the
header (it carries only their declarations and behavioural documentation),
so the state machine is modelled from the specification; both channels
replicate it identically, so a single state type and a single set of
operations model channel A and channel B alike.
-/

/-- Reduction of an integer modulo 2^16, as performed when a computed value is
stored into or returned as a `uint16_t`. -/
def u16 (n : ℤ) : ℕ := (n % 65536).toNat

/-- Conversion of a `float` value to `uint16_t`, modelled for the nonnegative
values that arise here: truncation toward zero (the floor, for nonnegative
input) followed by reduction modulo 2^16. -/
def trunc16 (x : ℚ) : ℕ := (⌊x⌋).toNat % 65536

/-- The target CPU clock rate `F_CPU`, 16 MHz: the clock reference of the
design, matching the count formulas documented in the header
(`count = 1000000/frequency - 1` for pin 1 and `count = 62500/frequency - 1`
for pin 2, both instances of `F_CPU` at 16000000). -/
def F_CPU : ℕ := 16000000

/-- `BeepPin1::freq` for the non-SAMD51 target, from `src/src/Arduboy2Beep.h`:
`return (uint16_t) (((F_CPU / 8 / 2) + (hz / 2)) / hz) - 1;`.
`F_CPU / 8 / 2` is exact integer division; the sum and quotient are `float`
operations modelled exactly over `ℚ`; the cast truncates to `uint16_t` and the
trailing `- 1` wraps modulo 2^16 on return. -/
def BeepPin1.freq (hz : ℚ) : ℕ :=
  u16 ((trunc16 ((((F_CPU / 8 / 2 : ℕ) : ℚ) + hz / 2) / hz) : ℤ) - 1)

/-- `BeepPin1::freq` for the SAMD51 target, from `src/src/Arduboy2Beep.h`:
`return hz;` — no frequency-to-count conversion, only the implicit
`float` to `uint16_t` conversion of the return. -/
def BeepPin1.freqSAMD51 (hz : ℚ) : ℕ := trunc16 hz

/-- `BeepPin2::freq`, from `src/src/Arduboy2Beep.h`:
`return (uint16_t) (((F_CPU / 128 / 2) + (hz / 2)) / hz) - 1;`. -/
def BeepPin2.freq (hz : ℚ) : ℕ :=
  u16 ((trunc16 ((((F_CPU / 128 / 2 : ℕ) : ℚ) + hz / 2) / hz) : ℤ) - 1)

/-- Channel A valid range: frequencies whose unwrapped count
`round(1000000/hz) - 1` lies in the documented interval [0, 65535]. -/
def BeepPin1.validHz (hz : ℚ) : Prop :=
  0 < hz ∧ 1 ≤ round ((1000000 : ℚ) / hz) ∧ round ((1000000 : ℚ) / hz) ≤ 65536

/-- Channel B valid range: frequencies whose unwrapped count
`round(62500/hz) - 1` lies in the documented interval [3, 1023]. -/
def BeepPin2.validHz (hz : ℚ) : Prop :=
  0 < hz ∧ 4 ≤ round ((62500 : ℚ) / hz) ∧ round ((62500 : ℚ) / hz) ≤ 1024

/-- Modelled from the spec: the per-channel state of the duration-countdown
machine. `duration` is the 8-bit tick counter (the header variable
`duration`); `sounding` records whether the timer peripheral is currently
toggling the pin (**Sounding**) or silent (**Silent**); `count` is the value
loaded into the timer comparison register. The implementations of the state
operations are not under `src/` (the header only declares them), so they are
modelled from the specification; channels A and B replicate them
identically, so one model serves both. -/
structure BeepState where
  duration : ℕ
  sounding : Bool
  count : ℕ
deriving DecidableEq

/-- Modelled from the spec: `begin()` (either channel; implementation not in
the header). Configures the peripheral into its disabled/silent initial
state with the duration counter at 0. -/
def Beep.begin : BeepState :=
  { duration := 0, sounding := false, count := 0 }

/-- Modelled from the spec: the durationless `tone(count)` (either channel;
implementation not in the header). Loads `count` into the comparison
register, enables the autonomous pin-toggle output (**Sounding**), and
clears any pending duration. -/
def Beep.tone (count : ℕ) (_s : BeepState) : BeepState :=
  { duration := 0, sounding := true, count := count % 65536 }

/-- Modelled from the spec: `tone(count, dur)` (either channel;
implementation not in the header). Identical to the durationless overload
but additionally sets the 8-bit duration counter to `dur`. -/
def Beep.toneDur (count dur : ℕ) (_s : BeepState) : BeepState :=
  { duration := dur % 256, sounding := true, count := count % 65536 }

/-- Modelled from the spec: `noTone()` (either channel; implementation not in
the header). Disables the pin-toggle output (**Silent**) unconditionally;
the duration counter is not touched. -/
def Beep.noTone (s : BeepState) : BeepState :=
  { s with sounding := false }

/-- Modelled from the spec: `timer()` (either channel; implementation not in
the header). If the duration counter is nonzero it is decremented; when the
decrement brings it to exactly 0 the tone is stopped with the same effect as
`noTone()`; a counter already at 0 leaves the state untouched. -/
def Beep.timer (s : BeepState) : BeepState :=
  if s.duration = 0 then s
  else if s.duration = 1 then Beep.noTone { s with duration := 0 }
  else { s with duration := s.duration - 1 }

/-- Evaluation rule for `round` on rationals, used to settle concrete
frequency computations. -/
lemma round_eval (x : ℚ) (n : ℤ) (h1 : (n : ℚ) ≤ x + 1/2) (h2 : x + 1/2 < n + 1) :
    round x = n := by
  rw [round_eq]
  exact Int.floor_eq_iff.mpr ⟨h1, h2⟩

/-- The add-half-then-truncate computation performed by the `freq` functions
agrees with round-to-nearest (ties up) followed by the wrapped decrement. -/
lemma trunc_formula (N : ℕ) (hz : ℚ) (h : 0 < hz) :
    u16 ((trunc16 (((N : ℚ) + hz / 2) / hz) : ℤ) - 1) = u16 (round ((N : ℚ) / hz) - 1) := by
  have hhz : hz ≠ 0 := ne_of_gt h
  have key : ((N : ℚ) + hz / 2) / hz = (N : ℚ) / hz + 1 / 2 := by
    rw [div_eq_iff hhz, add_mul, div_mul_cancel₀ _ hhz]
    ring
  have hr : (0 : ℤ) ≤ round ((N : ℚ) / hz) := by
    rw [round_eq]
    apply Int.floor_nonneg.mpr
    positivity
  rw [trunc16, key, ← round_eq]
  set r := round ((N : ℚ) / hz) with hrdef
  unfold u16
  omega

/-- On any positive frequency, `BeepPin1.freq` computes the rounded count
formula `round(1000000/hz) - 1` modulo 2^16. -/
lemma freqA_eq_round (hz : ℚ) (h : 0 < hz) :
    BeepPin1.freq hz = u16 (round ((1000000 : ℚ) / hz) - 1) := by
  have hF : ((F_CPU / 8 / 2 : ℕ) : ℚ) = ((1000000 : ℕ) : ℚ) := by norm_num [F_CPU]
  unfold BeepPin1.freq
  rw [hF]
  have := trunc_formula 1000000 hz h
  simpa using this

/-- On any positive frequency, `BeepPin2.freq` computes the rounded count
formula `round(62500/hz) - 1` modulo 2^16. -/
lemma freqB_eq_round (hz : ℚ) (h : 0 < hz) :
    BeepPin2.freq hz = u16 (round ((62500 : ℚ) / hz) - 1) := by
  have hF : ((F_CPU / 128 / 2 : ℕ) : ℚ) = ((62500 : ℕ) : ℚ) := by norm_num [F_CPU]
  unfold BeepPin2.freq
  rw [hF]
  have := trunc_formula 62500 hz h
  simpa using this

/-- Within the documented valid range of channel A, `freq` does not wrap:
it is exactly the rounded count formula. -/
lemma freqA_of_valid (hz : ℚ) (h : BeepPin1.validHz hz) :
    (BeepPin1.freq hz : ℤ) = round ((1000000 : ℚ) / hz) - 1 := by
  obtain ⟨h0, h1, h2⟩ := h
  rw [freqA_eq_round hz h0]
  unfold u16
  omega

/-- Within the documented valid range of channel B, `freq` does not wrap:
it is exactly the rounded count formula. -/
lemma freqB_of_valid (hz : ℚ) (h : BeepPin2.validHz hz) :
    (BeepPin2.freq hz : ℤ) = round ((62500 : ℚ) / hz) - 1 := by
  obtain ⟨h0, h1, h2⟩ := h
  rw [freqB_eq_round hz h0]
  unfold u16
  omega

/-- Evaluation rule for `Int.floor` on rationals. -/
lemma floor_eval (x : ℚ) (n : ℤ) (h1 : (n : ℚ) ≤ x) (h2 : x < n + 1) :
    ⌊x⌋ = n :=
  Int.floor_eq_iff.mpr ⟨h1, h2⟩

/-- Concrete evaluation shared by several results: channel A converts
1000 Hz to count 999. -/
lemma BeepPin1.freq_1000 : BeepPin1.freq 1000 = 999 := by
  rw [freqA_eq_round 1000 (by norm_num),
    round_eval ((1000000 : ℚ) / 1000) 1000 (by norm_num) (by norm_num)]
  decide

/-- C1: for every positive frequency `hz`, channel A `freq(hz)` returns the
unsigned 16-bit value `round((ClockRate/8/2)/hz) - 1 = round(1000000/hz) - 1`,
where `round` is round-to-nearest with ties up (the add-half-the-denominator
policy); in particular `freq(1000) = 999` at the 16 MHz clock reference. -/
theorem C1_channelA_freq_formula :
    (∀ hz : ℚ, 0 < hz →
      BeepPin1.freq hz = u16 (round ((1000000 : ℚ) / hz) - 1)) ∧
    BeepPin1.freq 1000 = 999 :=
  ⟨fun hz h => freqA_eq_round hz h, BeepPin1.freq_1000⟩

/-- C1 witness: the formula instantiated at the concrete frequency 2000 Hz. -/
theorem C1_witness :
    BeepPin1.freq 2000 = u16 (round ((1000000 : ℚ) / 2000) - 1) :=
  C1_channelA_freq_formula.1 2000 (by norm_num)

/-- C3: for every positive frequency `hz`, channel B `freq(hz)` returns the
unsigned 16-bit value `round((ClockRate/128/2)/hz) - 1 = round(62500/hz) - 1`
under the same rounding policy as channel A; the documented valid-range
endpoints are realised: 15625 Hz yields count 3 and 61.04 Hz yields count
1023, both inside the valid predicate. -/
theorem C3_channelB_freq_formula :
    (∀ hz : ℚ, 0 < hz →
      BeepPin2.freq hz = u16 (round ((62500 : ℚ) / hz) - 1)) ∧
    BeepPin2.freq 15625 = 3 ∧ BeepPin2.freq (6104/100) = 1023 ∧
    BeepPin2.validHz 15625 ∧ BeepPin2.validHz (6104/100) := by
  have h1 : round ((62500 : ℚ) / 15625) = 4 :=
    round_eval _ 4 (by norm_num) (by norm_num)
  have h2 : round ((62500 : ℚ) / (6104/100)) = 1024 :=
    round_eval _ 1024 (by norm_num) (by norm_num)
  refine ⟨fun hz h => freqB_eq_round hz h, ?_, ?_, ?_, ?_⟩
  · rw [freqB_eq_round 15625 (by norm_num), h1]
    decide
  · rw [freqB_eq_round (6104/100) (by norm_num), h2]
    decide
  · exact ⟨by norm_num, by rw [h1], by rw [h1]; norm_num⟩
  · exact ⟨by norm_num, by rw [h2]; norm_num, by rw [h2]⟩

/-- C3 witness: the formula instantiated at the concrete frequency 500 Hz. -/
theorem C3_witness :
    BeepPin2.freq 500 = u16 (round ((62500 : ℚ) / 500) - 1) :=
  C3_channelB_freq_formula.1 500 (by norm_num)

/-- Round-to-nearest (ties up) is monotone. -/
lemma round_le_round_of_le (x y : ℚ) (h : x ≤ y) : round x ≤ round y := by
  rw [round_eq, round_eq]
  exact Int.floor_le_floor (by linarith)

/-- The rounded count is antitone in the frequency, for positive
frequencies. -/
lemma round_count_antitone (N : ℚ) (hN : 0 ≤ N) (hz1 hz2 : ℚ)
    (h0 : 0 < hz1) (h12 : hz1 ≤ hz2) :
    round (N / hz2) ≤ round (N / hz1) := by
  apply round_le_round_of_le
  apply div_le_div_of_nonneg_left hN h0 h12

/-- C4: on each channel, `freq` is monotonically non-increasing in `hz`
over the valid range: `hz1 ≤ hz2` implies `freq hz1 ≥ freq hz2`. -/
theorem C4_freq_antitone :
    (∀ hz1 hz2 : ℚ, hz1 ≤ hz2 → BeepPin1.validHz hz1 → BeepPin1.validHz hz2 →
      BeepPin1.freq hz2 ≤ BeepPin1.freq hz1) ∧
    (∀ hz1 hz2 : ℚ, hz1 ≤ hz2 → BeepPin2.validHz hz1 → BeepPin2.validHz hz2 →
      BeepPin2.freq hz2 ≤ BeepPin2.freq hz1) := by
  constructor
  · intro hz1 hz2 h12 hv1 hv2
    have e1 := freqA_of_valid hz1 hv1
    have e2 := freqA_of_valid hz2 hv2
    have hmono := round_count_antitone 1000000 (by norm_num) hz1 hz2 hv1.1 h12
    omega
  · intro hz1 hz2 h12 hv1 hv2
    have e1 := freqB_of_valid hz1 hv1
    have e2 := freqB_of_valid hz2 hv2
    have hmono := round_count_antitone 62500 (by norm_num) hz1 hz2 hv1.1 h12
    omega

/-- Concrete valid-range membership for 1000 Hz on channel A. -/
lemma BeepPin1.valid_1000 : BeepPin1.validHz 1000 := by
  have h : round ((1000000 : ℚ) / 1000) = 1000 :=
    round_eval _ 1000 (by norm_num) (by norm_num)
  exact ⟨by norm_num, by rw [h]; norm_num, by rw [h]; norm_num⟩

/-- Concrete valid-range membership for 2000 Hz on channel A. -/
lemma BeepPin1.valid_2000 : BeepPin1.validHz 2000 := by
  have h : round ((1000000 : ℚ) / 2000) = 500 :=
    round_eval _ 500 (by norm_num) (by norm_num)
  exact ⟨by norm_num, by rw [h]; norm_num, by rw [h]; norm_num⟩

/-- C4 witness: monotonicity instantiated at 1000 Hz and 2000 Hz on
channel A. -/
theorem C4_witness : BeepPin1.freq 2000 ≤ BeepPin1.freq 1000 :=
  C4_freq_antitone.1 1000 2000 (by norm_num) BeepPin1.valid_1000 BeepPin1.valid_2000

/-- Core approximation bound: when the rounded count numerator is at least 2,
the frequency reconstructed from the rounded value differs from the request
by at most half the frequency step down to the next lower count. -/
lemma reconstruct_close (N hz : ℚ) (_hN : 0 < N) (h0 : 0 < hz)
    (h2 : 2 ≤ round (N / hz)) :
    |N / (round (N / hz) : ℚ) - hz| ≤
      (N / ((round (N / hz) : ℚ) - 1) - N / (round (N / hz) : ℚ)) / 2 := by
  have habs : |N / hz - (round (N / hz) : ℚ)| ≤ 1 / 2 := abs_sub_round (N / hz)
  set q : ℚ := N / hz with hq
  set n : ℚ := (round (N / hz) : ℚ) with hn
  have hn2 : (2 : ℚ) ≤ n := by rw [hn]; exact_mod_cast h2
  obtain ⟨hl, hr⟩ := abs_le.mp habs
  have hn0 : (0 : ℚ) < n := by linarith
  have hn1 : (0 : ℚ) < n - 1 := by linarith
  have hNq : N = q * hz := by rw [hq, div_mul_cancel₀ _ (ne_of_gt h0)]
  have hden : (0 : ℚ) < 2 * n * (n - 1) := by positivity
  have expand1 : (N / (n - 1) - N / n) / 2 - (N / n - hz) =
      (q * hz - 2 * (n - 1) * (q - n) * hz) / (2 * n * (n - 1)) := by
    rw [hNq]
    field_simp
    ring
  have expand2 : (N / n - hz) + (N / (n - 1) - N / n) / 2 =
      (q * hz + 2 * (n - 1) * (q - n) * hz) / (2 * n * (n - 1)) := by
    rw [hNq]
    field_simp
    ring
  rw [abs_le]
  constructor
  · have hnum : 0 ≤ q * hz + 2 * (n - 1) * (q - n) * hz := by
      nlinarith [mul_nonneg (mul_nonneg (le_of_lt hn1)
          (by linarith : (0 : ℚ) ≤ q - n + 1/2)) (le_of_lt h0),
        mul_nonneg (le_of_lt h0) (by linarith : (0 : ℚ) ≤ q - n + 1/2)]
    have hq2 := div_nonneg hnum (le_of_lt hden)
    rw [← expand2] at hq2
    linarith
  · have hnum : 0 ≤ q * hz - 2 * (n - 1) * (q - n) * hz := by
      nlinarith [mul_nonneg (mul_nonneg (le_of_lt hn1)
          (by linarith : (0 : ℚ) ≤ 1/2 - (q - n))) (le_of_lt h0),
        mul_nonneg (le_of_lt h0) (by linarith : (0 : ℚ) ≤ q - n + 1/2)]
    have hq2 := div_nonneg hnum (le_of_lt hden)
    rw [← expand1] at hq2
    linarith

/-- C5 counterexample: 670000 Hz is inside channel A valid range
(count 0, within the documented approx 15.26 Hz to 1 MHz span), but the
reconstructed frequency 1000000/(0+1) = 1000000 differs from the request by
330000 Hz, more than half of the only adjacent-count frequency step at
count 0 (the step from count 0 to count 1 is 500000 Hz, half of it 250000),
so the round-trip bound of the claim fails there. -/
theorem C5_counterexample :
    BeepPin1.validHz 670000 ∧ BeepPin1.freq 670000 = 0 ∧
    ¬ (|(1000000 : ℚ) / ((BeepPin1.freq 670000 : ℚ) + 1) - 670000| ≤
        ((1000000 : ℚ) / ((BeepPin1.freq 670000 : ℚ) + 1) -
          (1000000 : ℚ) / ((BeepPin1.freq 670000 : ℚ) + 2)) / 2) := by
  have hr : round ((1000000 : ℚ) / 670000) = 1 :=
    round_eval _ 1 (by norm_num) (by norm_num)
  have hv : BeepPin1.validHz 670000 :=
    ⟨by norm_num, by rw [hr], by rw [hr]; norm_num⟩
  have hf : BeepPin1.freq 670000 = 0 := by
    rw [freqA_eq_round 670000 (by norm_num), hr]
    decide
  refine ⟨hv, hf, ?_⟩
  rw [hf]
  push_cast
  rw [abs_le]
  norm_num

/-- C5 (amended): for every `hz` in a channel's documented valid range that
yields a count of at least 1 (on channel B the whole documented range
qualifies), the frequency reconstructed via the channel's inverse formula
differs from `hz` by at most half the frequency step between the returned
count and the adjacent count below (the larger of the two adjacent steps);
at count 0, which channel A's range includes, the bound can fail. -/
theorem C5_roundtrip_amended :
    (∀ hz : ℚ, BeepPin1.validHz hz → 1 ≤ BeepPin1.freq hz →
      |(1000000 : ℚ) / ((BeepPin1.freq hz : ℚ) + 1) - hz| ≤
        ((1000000 : ℚ) / (BeepPin1.freq hz : ℚ) -
          (1000000 : ℚ) / ((BeepPin1.freq hz : ℚ) + 1)) / 2) ∧
    (∀ hz : ℚ, BeepPin2.validHz hz →
      |(62500 : ℚ) / ((BeepPin2.freq hz : ℚ) + 1) - hz| ≤
        ((62500 : ℚ) / (BeepPin2.freq hz : ℚ) -
          (62500 : ℚ) / ((BeepPin2.freq hz : ℚ) + 1)) / 2) := by
  constructor
  · intro hz hv hfreq1
    have e := freqA_of_valid hz hv
    have ecast : (BeepPin1.freq hz : ℚ) = (round ((1000000 : ℚ) / hz) : ℚ) - 1 := by
      have := congrArg (fun z : ℤ => (z : ℚ)) e
      push_cast at this
      exact this
    have hr2 : 2 ≤ round ((1000000 : ℚ) / hz) := by omega
    have hmain := reconstruct_close 1000000 hz (by norm_num) hv.1 hr2
    rw [ecast, sub_add_cancel]
    exact hmain
  · intro hz hv
    have e := freqB_of_valid hz hv
    have ecast : (BeepPin2.freq hz : ℚ) = (round ((62500 : ℚ) / hz) : ℚ) - 1 := by
      have := congrArg (fun z : ℤ => (z : ℚ)) e
      push_cast at this
      exact this
    have hr2 : 2 ≤ round ((62500 : ℚ) / hz) := by
      have := hv.2.1
      omega
    have hmain := reconstruct_close 62500 hz (by norm_num) hv.1 hr2
    rw [ecast, sub_add_cancel]
    exact hmain

/-- C5 witness: the amended round-trip bound instantiated at 1000 Hz on
channel A. -/
theorem C5_witness :
    |(1000000 : ℚ) / ((BeepPin1.freq 1000 : ℚ) + 1) - 1000| ≤
      ((1000000 : ℚ) / (BeepPin1.freq 1000 : ℚ) -
        (1000000 : ℚ) / ((BeepPin1.freq 1000 : ℚ) + 1)) / 2 :=
  C5_roundtrip_amended.1 1000 BeepPin1.valid_1000
    (by rw [BeepPin1.freq_1000]; norm_num)

/-- C10: under `__SAMD51__`, channel A `freq` performs no
frequency-to-count conversion: it returns `hz` truncated to an unsigned
16-bit integer (characterised, on the representable range, by
`freqSAMD51 hz ≤ hz < freqSAMD51 hz + 1`); at 1000 Hz it returns 1000,
while the non-SAMD51 conversion returns 999, so the two differ. -/
theorem C10_samd51_identity :
    (∀ hz : ℚ, 0 ≤ hz → hz < 65536 →
      (BeepPin1.freqSAMD51 hz : ℚ) ≤ hz ∧ hz < (BeepPin1.freqSAMD51 hz : ℚ) + 1) ∧
    BeepPin1.freqSAMD51 1000 = 1000 ∧
    BeepPin1.freq 1000 = 999 ∧
    BeepPin1.freqSAMD51 1000 ≠ BeepPin1.freq 1000 := by
  have h1000 : BeepPin1.freqSAMD51 1000 = 1000 := by
    unfold BeepPin1.freqSAMD51 trunc16
    rw [floor_eval 1000 1000 (by norm_num) (by norm_num)]
    decide
  refine ⟨?_, h1000, BeepPin1.freq_1000, ?_⟩
  · intro hz h0 h65
    have hf0 : 0 ≤ ⌊hz⌋ := Int.floor_nonneg.mpr h0
    have hfle : ((⌊hz⌋ : ℤ) : ℚ) ≤ hz := Int.floor_le hz
    have hflt : hz < ((⌊hz⌋ : ℤ) : ℚ) + 1 := Int.lt_floor_add_one hz
    have hf65 : ⌊hz⌋ < 65536 := by
      by_contra hc
      push_neg at hc
      have : ((65536 : ℤ) : ℚ) ≤ ((⌊hz⌋ : ℤ) : ℚ) := by exact_mod_cast hc
      have : (65536 : ℚ) ≤ hz := by push_cast at this ⊢; linarith
      linarith
    have hcast : ((BeepPin1.freqSAMD51 hz : ℕ) : ℚ) = ((⌊hz⌋ : ℤ) : ℚ) := by
      unfold BeepPin1.freqSAMD51 trunc16
      rw [Nat.mod_eq_of_lt (by omega), ← Int.cast_natCast,
        Int.toNat_of_nonneg hf0]
    rw [hcast]
    exact ⟨hfle, hflt⟩
  · rw [h1000, BeepPin1.freq_1000]
    decide

/-- C10 witness: the truncation characterisation instantiated at the
non-integer frequency 2.5 Hz. -/
theorem C10_witness :
    (BeepPin1.freqSAMD51 (5/2) : ℚ) ≤ 5/2 ∧
      (5/2 : ℚ) < (BeepPin1.freqSAMD51 (5/2) : ℚ) + 1 :=
  C10_samd51_identity.1 (5/2) (by norm_num) (by norm_num)

/-- While more ticks remain than have been applied, iterating `timer` only
lowers the duration counter, leaving the output state untouched. -/
lemma timer_iterate_of_lt (k : ℕ) (s : BeepState) (hk : k < s.duration) :
    Beep.timer^[k] s = { s with duration := s.duration - k } := by
  induction k generalizing s with
  | zero => rfl
  | succ k ih =>
    have hstep : Beep.timer s = { s with duration := s.duration - 1 } := by
      unfold Beep.timer
      rw [if_neg (by omega), if_neg (by omega)]
    rw [Function.iterate_succ_apply, hstep,
      ih { s with duration := s.duration - 1 } (by simpa using by omega)]
    simp
    omega

/-- Iterating `timer` exactly `duration` times from a state with pending
ticks silences the channel and zeroes the counter. -/
lemma timer_iterate_stop (s : BeepState) (h : 0 < s.duration) :
    Beep.timer^[s.duration] s = { s with duration := 0, sounding := false } := by
  obtain ⟨d, hd⟩ : ∃ d, s.duration = d + 1 := ⟨s.duration - 1, by omega⟩
  rw [hd, Function.iterate_succ_apply',
    timer_iterate_of_lt d s (by omega)]
  have h1 : s.duration - d = 1 := by omega
  rw [h1]
  simp [Beep.timer, Beep.noTone]

/-- A state with no pending duration is a fixed point of `timer`. -/
lemma timer_fixed_of_zero (s : BeepState) (h : s.duration = 0) :
    Beep.timer s = s := by
  unfold Beep.timer
  rw [if_pos h]

/-- After a timed `toneDur c n` with `n` in 1..255, the channel sounds for
exactly `n` ticks: every earlier tick leaves it sounding (with one tick left
after the (n-1)-th), and the n-th tick silences it. -/
lemma toneDur_tick_profile (c n : ℕ) (s : BeepState) (h1 : 1 ≤ n) (h255 : n ≤ 255) :
    (∀ k, k < n → (Beep.timer^[k] (Beep.toneDur c n s)).sounding = true) ∧
    (Beep.timer^[n] (Beep.toneDur c n s)).sounding = false ∧
    (Beep.timer^[n - 1] (Beep.toneDur c n s)).duration = 1 := by
  set t := Beep.toneDur c n s with ht
  have hdura : t.duration = n := by
    rw [ht]
    simp [Beep.toneDur]
    omega
  have hsound : t.sounding = true := by rw [ht]; rfl
  refine ⟨?_, ?_, ?_⟩
  · intro k hk
    rw [timer_iterate_of_lt k t (by omega)]
    simp [hsound]
  · have hstop := timer_iterate_stop t (by omega)
    rw [hdura] at hstop
    rw [hstop]
  · rw [timer_iterate_of_lt (n - 1) t (by omega)]
    simp [hdura]
    omega

/-- C2: `playTone(c, n)` with `n` in 1..255 becomes Silent exactly after the
n-th `tick()` and not before; the (n-1)-th tick leaves it Sounding with one
tick remaining; a tick with a positive counter decrements it, acting as
`stopTone()` when the decrement reaches 0; concretely, `playTone(999, 100)`
is still Sounding with one tick left after 99 ticks and Silent after 100. -/
theorem C2_timed_tone :
    ∀ (s : BeepState) (c n : ℕ), 1 ≤ n → n ≤ 255 →
      (∀ k, k < n → (Beep.timer^[k] (Beep.toneDur c n s)).sounding = true) ∧
      (Beep.timer^[n] (Beep.toneDur c n s)).sounding = false ∧
      (Beep.timer^[n - 1] (Beep.toneDur c n s)).duration = 1 ∧
      (∀ t : BeepState, 1 < t.duration →
        Beep.timer t = { t with duration := t.duration - 1 }) ∧
      (∀ t : BeepState, t.duration = 1 →
        Beep.timer t = Beep.noTone { t with duration := 0 }) ∧
      (Beep.timer^[99] (Beep.toneDur 999 100 s)).sounding = true ∧
      (Beep.timer^[99] (Beep.toneDur 999 100 s)).duration = 1 ∧
      (Beep.timer^[100] (Beep.toneDur 999 100 s)).sounding = false := by
  intro s c n h1 h255
  obtain ⟨ha, hb, hc⟩ := toneDur_tick_profile c n s h1 h255
  obtain ⟨ha', hb', hc'⟩ := toneDur_tick_profile 999 100 s (by norm_num) (by norm_num)
  refine ⟨ha, hb, hc, ?_, ?_, ha' 99 (by norm_num), ?_, hb'⟩
  · intro t ht
    unfold Beep.timer
    rw [if_neg (by omega), if_neg (by omega)]
  · intro t ht
    unfold Beep.timer
    rw [if_neg (by omega), if_pos ht]
  · have h99 : (100 : ℕ) - 1 = 99 := rfl
    rw [h99] at hc'
    exact hc'

/-- C2 witness: the concrete scenario run from the freshly initialised
state. -/
theorem C2_witness :
    (Beep.timer^[100] (Beep.toneDur 999 100 Beep.begin)).sounding = false :=
  (C2_timed_tone Beep.begin 999 100 (by norm_num) (by norm_num)).2.2.2.2.2.2.2

/-- C6: the durationless `playTone(c)` clears any pending duration, a tick
with a zero counter changes nothing at all, and hence 1 to 254 subsequent
ticks never silence the continuous tone. -/
theorem C6_continuous_no_stop :
    ∀ (s : BeepState) (c : ℕ),
      (Beep.tone c s).duration = 0 ∧
      (∀ t : BeepState, t.duration = 0 → Beep.timer t = t) ∧
      (∀ k : ℕ, 1 ≤ k → k ≤ 254 →
        (Beep.timer^[k] (Beep.tone c s)).sounding = true) := by
  intro s c
  refine ⟨rfl, fun t ht => timer_fixed_of_zero t ht, ?_⟩
  intro k h1 h254
  rw [Function.iterate_fixed (timer_fixed_of_zero _ rfl) k]
  rfl

/-- C6 witness: a continuous tone is still sounding after 200 ticks. -/
theorem C6_witness :
    (Beep.timer^[200] (Beep.tone 440 Beep.begin)).sounding = true :=
  (C6_continuous_no_stop Beep.begin 440).2.2 200 (by norm_num) (by norm_num)

/-- C7: `playTone(c, 0)` produces exactly the same state as the durationless
`playTone(c)`, and the tone it starts is never stopped automatically: the
countdown is a no-op at 0, so the channel stays Sounding after any number of
ticks. -/
theorem C7_zero_ticks_is_continuous :
    ∀ (s : BeepState) (c : ℕ),
      Beep.toneDur c 0 s = Beep.tone c s ∧
      (∀ k : ℕ, (Beep.timer^[k] (Beep.toneDur c 0 s)).sounding = true) := by
  intro s c
  refine ⟨rfl, fun k => ?_⟩
  rw [Function.iterate_fixed (timer_fixed_of_zero _ rfl) k]
  rfl

/-- C8: `stopTone()` always leaves the channel Silent, is idempotent, and
never touches the duration counter (in particular a counter at 0 stays 0). -/
theorem C8_stopTone_idempotent :
    ∀ s : BeepState,
      (Beep.noTone s).sounding = false ∧
      Beep.noTone (Beep.noTone s) = Beep.noTone s ∧
      (Beep.noTone s).duration = s.duration :=
  fun _ => ⟨rfl, rfl, rfl⟩

/-- C9: immediately after `begin()` the duration counter is 0 and the
channel is Silent; the model is shared by both channels, so this covers
channel A and channel B alike. -/
theorem C9_begin_silent :
    Beep.begin.duration = 0 ∧ Beep.begin.sounding = false :=
  ⟨rfl, rfl⟩
